import Mathlib

/-!
Verification development for the retrieval-augmented question-answering
service (rag-assistant).  Python source files are shallowly embedded:
strings are `List Char` (Python `str` is a sequence of code points),
floats carrying similarity scores are `ℚ`, dictionaries become
structures, and `None` becomes `Option`.  Each definition is annotated
with the source function it embeds.
-/

set_option allowUnsafeReducibility true

namespace RagAssistant

-- Batteries marks the arithmetic of `Rat` `@[irreducible]`; restore
-- definitional reducibility so concrete score computations evaluate.
attribute [local semireducible] Rat.mul Rat.add Rat.sub Rat.neg

/-! ### Generic helpers modelling Python primitives -/

/-- Python truthiness of an optional string: `None` and `""` are falsy. -/
def pyTruthyStr : Option String → Bool
  | none => false
  | some s => s ≠ ""

/-- Python `a or b` for an optional string `a` with string default `b`. -/
def pyOrStr (a : Option String) (b : String) : String :=
  match a with
  | some s => if s ≠ "" then s else b
  | none => b

/-- Python slice `l[a:b]` for non-negative indices (clamping semantics). -/
def pySlice (l : List Char) (a b : Nat) : List Char :=
  (l.take b).drop a

/-- Python `str.isspace`-style whitespace test used by `str.strip`. -/
def pyIsSpace (c : Char) : Bool := c.isWhitespace

/-- Python `str.strip()`: drop whitespace from both ends. -/
def pyStrip (l : List Char) : List Char :=
  ((l.dropWhile pyIsSpace).reverse.dropWhile pyIsSpace).reverse

/-- Worker for `dedupKeepFirst`: `seen` collects emitted keys. -/
def dedupKeepFirstAux [DecidableEq α] (seen : List α) : List α → List α
  | [] => []
  | x :: xs =>
    if x ∈ seen then dedupKeepFirstAux seen xs
    else x :: dedupKeepFirstAux (x :: seen) xs

/-- Deduplicate keeping the first occurrence of each element
(the key order of a Python `dict` built by insertion). -/
def dedupKeepFirst [DecidableEq α] (l : List α) : List α :=
  dedupKeepFirstAux [] l

/-- Insert into a list sorted by the boolean relation `le`
(used to model Python's `sorted`/`list.sort`). -/
def orderedInsertBy (le : α → α → Bool) (a : α) : List α → List α
  | [] => [a]
  | b :: l => if le a b then a :: b :: l else b :: orderedInsertBy le a l

/-- Insertion sort by a boolean relation, modelling Python `sorted(..)`. -/
def insertionSortBy (le : α → α → Bool) : List α → List α
  | [] => []
  | a :: l => orderedInsertBy le a (insertionSortBy le l)

theorem mem_orderedInsertBy {le : α → α → Bool} {a x : α} :
    ∀ {l : List α}, x ∈ orderedInsertBy le a l → x = a ∨ x ∈ l := by
  intro l
  induction l with
  | nil => intro h; simpa [orderedInsertBy] using h
  | cons b t ih =>
    intro h
    cases hle : le a b
    · simp only [orderedInsertBy, hle, Bool.false_eq_true, if_false, List.mem_cons] at h
      rcases h with h | h
      · exact Or.inr (by simp [h])
      · rcases ih h with h' | h'
        · exact Or.inl h'
        · exact Or.inr (by simp [h'])
    · simpa [orderedInsertBy, hle, or_assoc] using h

theorem mem_insertionSortBy {le : α → α → Bool} {x : α} :
    ∀ {l : List α}, x ∈ insertionSortBy le l → x ∈ l := by
  intro l
  induction l with
  | nil => intro h; simp [insertionSortBy] at h
  | cons a t ih =>
    intro h
    rcases mem_orderedInsertBy (by simpa [insertionSortBy] using h) with h' | h'
    · simp [h']
    · simp [ih h']

theorem length_pyStrip_le (l : List Char) : (pyStrip l).length ≤ l.length := by
  have h1 : (l.dropWhile pyIsSpace).length ≤ l.length :=
    (List.dropWhile_sublist (l := l) (p := pyIsSpace)).length_le
  have h2 : ((l.dropWhile pyIsSpace).reverse.dropWhile pyIsSpace).length ≤
      (l.dropWhile pyIsSpace).reverse.length :=
    (List.dropWhile_sublist (p := pyIsSpace)).length_le
  simp only [pyStrip, List.length_reverse] at h2 ⊢
  omega

theorem dropWhile_eq_self_of_not {p : α → Bool} {l : List α}
    (h : ∀ a ∈ l, p a = false) : l.dropWhile p = l := by
  cases l with
  | nil => rfl
  | cons a t => simp [List.dropWhile, h a (by simp)]

/-- `pyStrip` is the identity on lists with no whitespace characters. -/
theorem pyStrip_eq_self {l : List Char} (h : ∀ c ∈ l, pyIsSpace c = false) :
    pyStrip l = l := by
  have h1 : l.dropWhile pyIsSpace = l := dropWhile_eq_self_of_not h
  have h2 : l.reverse.dropWhile pyIsSpace = l.reverse :=
    dropWhile_eq_self_of_not (by intro a ha; exact h a (by simpa using ha))
  simp [pyStrip, h1, h2]

theorem mem_dedupKeepFirstAux [DecidableEq α] {x : α} :
    ∀ {l seen : List α}, x ∈ dedupKeepFirstAux seen l → x ∈ l := by
  intro l
  induction l with
  | nil => intro seen h; simp [dedupKeepFirstAux] at h
  | cons y ys ih =>
    intro seen h
    by_cases hy : y ∈ seen
    · simp only [dedupKeepFirstAux, if_pos hy] at h
      exact List.mem_cons_of_mem _ (ih h)
    · simp only [dedupKeepFirstAux, if_neg hy, List.mem_cons] at h
      rcases h with h | h
      · simp [h]
      · exact List.mem_cons_of_mem _ (ih h)

theorem mem_dedupKeepFirst [DecidableEq α] {x : α} {l : List α}
    (h : x ∈ dedupKeepFirst l) : x ∈ l :=
  mem_dedupKeepFirstAux h

theorem nodup_dedupKeepFirstAux [DecidableEq α] :
    ∀ (l seen : List α), (dedupKeepFirstAux seen l).Nodup ∧
      ∀ x ∈ dedupKeepFirstAux seen l, x ∉ seen := by
  intro l
  induction l with
  | nil => intro seen; simp [dedupKeepFirstAux]
  | cons y ys ih =>
    intro seen
    by_cases hy : y ∈ seen
    · simpa only [dedupKeepFirstAux, if_pos hy] using ih seen
    · have ih' := ih (y :: seen)
      simp only [dedupKeepFirstAux, if_neg hy]
      constructor
      · refine List.nodup_cons.2 ⟨?_, ih'.1⟩
        intro hmem
        have := ih'.2 _ hmem
        simp at this
      · intro x hx
        rcases List.mem_cons.1 hx with hx | hx
        · exact hx ▸ hy
        · have := ih'.2 _ hx
          intro hseen
          exact this (List.mem_cons_of_mem _ hseen)

theorem nodup_dedupKeepFirst [DecidableEq α] (l : List α) :
    (dedupKeepFirst l).Nodup :=
  (nodup_dedupKeepFirstAux l []).1

/-! ### Access-control configuration (src/config.py, src/services/access_control_service.py) -/

/-- `settings.access_levels` (src/config.py lines 138-142): the temporary
configuration grants every subscription type all three sections. -/
def accessLevelsConfig : List (String × List String) :=
  [("restaurant_management", ["restaurant_ops", "procedures", "standards"]),
   ("kitchen_management", ["restaurant_ops", "procedures", "standards"]),
   ("concepts_recipes", ["restaurant_ops", "procedures", "standards"])]

/-- `settings.detailed_access_levels` (src/config.py lines 146-162). -/
def detailedAccessConfig : List (String × List (String × String)) :=
  [("restaurant_management",
     [("restaurant_ops", "full"), ("standards", "read_only"), ("procedures", "read_only")]),
   ("kitchen_management",
     [("restaurant_ops", "none"), ("standards", "full"), ("procedures", "full")]),
   ("concepts_recipes",
     [("restaurant_ops", "none"), ("standards", "read_only"), ("procedures", "full")])]

/-- `AccessControlService.get_user_sections`: `self.access_levels.get(subscription_type, [])`. -/
def getUserSections (subscriptionType : String) : List String :=
  ((accessLevelsConfig.lookup subscriptionType).getD [])

/-- `AccessControlService.check_section_access` (access_control_service.py lines 19-59). -/
def checkSectionAccess (subscriptionType sectionArg requiredAccess : String) : Bool :=
  match detailedAccessConfig.lookup subscriptionType with
  | none => false
  | some userAccess =>
    match userAccess.lookup sectionArg with
    | none => false
    | some sectionAccess =>
      if sectionAccess = "none" then false
      else if sectionAccess = "full" then true
      else if sectionAccess = "read_only" then
        requiredAccess = "read_only" ∨ requiredAccess = "read"
      else false

/-- The hard-coded section list of the `/chat` handler
(src/main.py line 468: `user_sections = ["restaurant_ops", "procedures", "standards"]`),
used for every principal regardless of access level. -/
def chatUserSections : List String :=
  ["restaurant_ops", "procedures", "standards"]

/-! ### Title resolution for citations (src/main.py) -/

/-- Python `title.rsplit('.', 1)[0]` when `'.' in title`:
everything before the last dot. -/
def beforeLastDot (l : List Char) : List Char :=
  ((l.reverse.dropWhile (· ≠ '.')).drop 1).reverse

/-- The `source_info` dictionary consumed by `get_better_document_name`;
only the `title` key is read there. -/
structure SourceInfo where
  title : String
deriving DecidableEq, Repr

/-- `get_better_document_name` (src/main.py lines 2124-2152), on the
character-list model of Python strings.  The argument is `none` when
`source_info` is falsy or has no truthy `"title"` key. -/
def getBetterDocumentName (sourceInfo : Option SourceInfo) (documentId : Int) : List Char :=
  match sourceInfo with
  | some info =>
    if info.title ≠ "" then
      let title := info.title.data
      if title = [] ∨ title = "string".data ∨ pyStrip title = [] then
        ("Документ ".data) ++ (toString documentId).data
      else
        if '.' ∈ title then beforeLastDot title else title
    else ("Документ ".data) ++ (toString documentId).data
  | none => ("Документ ".data) ++ (toString documentId).data

/-- The title-resolution portion of `get_document_info`
(src/main.py lines 2074-2101): prefer `title`, then `original_filename`,
then `filename`, each required to be non-"string", truthy and
non-blank; otherwise the `Документ <id>` fallback; finally strip the
extension when a dot is present. -/
def getDocumentInfoTitle (title originalFilename filename : Option String)
    (documentId : Int) : List Char :=
  let pick (o : Option String) : Option (List Char) :=
    match o with
    | some s =>
      if s ≠ "" ∧ s ≠ "string" ∧ pyStrip s.data ≠ [] then some (pyStrip s.data) else none
    | none => none
  let documentTitle : List Char :=
    match pick title with
    | some t => t
    | none =>
      match pick originalFilename with
      | some t => t
      | none =>
        match pick filename with
        | some t => t
        | none => ("Документ ".data) ++ (toString documentId).data
  if documentTitle ≠ [] ∧ '.' ∈ documentTitle then beforeLastDot documentTitle
  else documentTitle

/-! ### Vector store model (src/services/vector_service.py)

The Qdrant collection is modelled as a list of points.  The similarity
score of each point with respect to the query embedding is opaque to the
service code, so each modelled point carries its score for the query
directly; `search` then filters, thresholds, sorts by score and trims,
which is the contract of `client.search`. -/

/-- One indexed point: its query score plus the payload written by the
indexer (`_store_chunks_in_vector_db` / `add_embeddings`). -/
structure StorePoint where
  score : ℚ
  documentId : Int
  chunkId : String
  content : List Char
  /-- payload key "section" (`section` is a Lean keyword). -/
  docSection : String
  accessLevel : String
  chunkType : String
  pageNumber : Option Int
  sectionName : String
  sheetName : String
  documentName : String
  metadataNonempty : Bool
  chunkIndex : Nat
  contentLength : Int
  hasImages : Bool
  fileType : String
deriving DecidableEq, Repr

/-- The filter dictionary accepted by `VectorService.search_similar`
(vector_service.py lines 205-251); a key that is absent imposes no
condition. -/
structure SearchFilters where
  /-- filter key "section" (`section` is a Lean keyword). -/
  docSection : Option String := none
  accessLevel : Option String := none
  chunkType : Option String := none
  fileType : Option String := none
  sheetName : Option String := none
  documentId : Option Int := none
  minContentLength : Option Int := none
  maxContentLength : Option Int := none
deriving DecidableEq, Repr

/-- Conjunction of the `FieldCondition`s built in `search_similar`. -/
def matchesFilter (f : SearchFilters) (p : StorePoint) : Bool :=
  (match f.docSection with | none => true | some s => p.docSection = s) &&
  (match f.accessLevel with | none => true | some a => p.accessLevel = a) &&
  (match f.chunkType with | none => true | some t => p.chunkType = t) &&
  (match f.fileType with | none => true | some t => p.fileType = t) &&
  (match f.sheetName with | none => true | some s => p.sheetName = s) &&
  (match f.documentId with | none => true | some d => p.documentId = d) &&
  (match f.minContentLength with | none => true | some m => m ≤ p.contentLength) &&
  (match f.maxContentLength with | none => true | some m => p.contentLength ≤ m)

/-- Scores are sorted descending (`reverse=True` orderings and the store's
ranked answer): `a` may precede `b` when its score is at least `b`'s. -/
def scoreDescLe (a b : StorePoint) : Bool := b.score ≤ a.score

/-- `client.search(collection, vector, limit, score_threshold, filter)`:
points passing the filter and the score threshold, ranked by score
descending, trimmed to `limit`. -/
def qdrantSearch (points : List StorePoint) (limit : Nat) (scoreThreshold : ℚ)
    (filter : SearchFilters) : List StorePoint :=
  (insertionSortBy scoreDescLe
      (points.filter (fun p => matchesFilter filter p && scoreThreshold ≤ p.score))).take limit

/-- `sum(1 for c in content if not c.isalnum() and not c.isspace())`
(vector_service.py line 645). -/
def specialCount (content : List Char) : Nat :=
  (content.filter (fun c => !c.isAlphanum && !c.isWhitespace)).length

/-- The per-result content-quality predicate of
`_smart_filter_and_rank_results` step 1 (lines 630-649): a result is kept
iff it is not dropped by any of the three `continue`s. -/
def smartKeep (scoreThreshold : ℚ) (p : StorePoint) : Bool :=
  (20 ≤ (pyStrip p.content).length) &&
  (scoreThreshold * mkRat 9 10 ≤ p.score) &&
  (((specialCount p.content : ℚ) ≤ (p.content.length : ℚ) * mkRat 3 10))

/-- `calculate_quality_score` (vector_service.py lines 667-684). -/
def qualityScore (p : StorePoint) : ℚ :=
  let lengthBonus : ℚ :=
    if 100 ≤ p.contentLength ∧ p.contentLength ≤ 500 then mkRat 1 10
    else if 500 < p.contentLength then mkRat (-1) 20 else 0
  let typeBonus : ℚ := if p.chunkType = "text" then mkRat 1 20 else 0
  let metadataBonus : ℚ := if p.metadataNonempty then mkRat 1 50 else 0
  p.score + lengthBonus + typeBonus + metadataBonus

/-- Descending order by quality score. -/
def qualityDescLe (a b : StorePoint) : Bool := qualityScore b ≤ qualityScore a

/-- `_smart_filter_and_rank_results` (vector_service.py lines 595-700):
quality filtering, at most 3 best chunks per document (dict key order =
first appearance), re-ranking by quality score, trim to `limit`. -/
def smartFilterAndRankResults (searchResult : List StorePoint) (limit : Nat)
    (scoreThreshold : ℚ) : List StorePoint :=
  if searchResult = [] then []
  else
    let filtered := searchResult.filter (smartKeep scoreThreshold)
    let docIds := dedupKeepFirst (filtered.map (·.documentId))
    let deduplicated := docIds.flatMap (fun d =>
      (insertionSortBy scoreDescLe (filtered.filter (·.documentId = d))).take 3)
    (insertionSortBy qualityDescLe deduplicated).take limit

/-- `VectorService.search_similar` (vector_service.py lines 199-275):
search 3x the limit (capped at 50) at a lowered threshold, then apply the
smart filter at the requested threshold. -/
def searchSimilar (points : List StorePoint) (limit : Nat) (scoreThreshold : ℚ)
    (filters : SearchFilters) : List StorePoint :=
  let initialLimit := min (limit * 3) 50
  let searchResult := qdrantSearch points initialLimit (scoreThreshold * mkRat 8 10) filters
  smartFilterAndRankResults searchResult limit scoreThreshold

/-- Every member of the smart-filtered list survived the quality filter. -/
theorem mem_smartFilterAndRankResults {searchResult : List StorePoint} {limit : Nat}
    {t : ℚ} {p : StorePoint} (h : p ∈ smartFilterAndRankResults searchResult limit t) :
    p ∈ searchResult ∧ smartKeep t p = true := by
  unfold smartFilterAndRankResults at h
  by_cases hnil : searchResult = []
  · simp [hnil] at h
  · simp only [hnil, if_false] at h
    have h1 := mem_insertionSortBy (List.mem_of_mem_take h)
    rcases List.mem_flatMap.1 h1 with ⟨d, _, hd⟩
    have h2 := mem_insertionSortBy (List.mem_of_mem_take hd)
    have h3 := List.mem_filter.1 h2
    have h4 := List.mem_filter.1 h3.1
    exact ⟨h4.1, h4.2⟩

/-- Every member of a `search_similar` answer came from the store and
passed the smart quality filter. -/
theorem mem_searchSimilar {points : List StorePoint} {limit : Nat} {t : ℚ}
    {filters : SearchFilters} {p : StorePoint}
    (h : p ∈ searchSimilar points limit t filters) :
    p ∈ points ∧ matchesFilter filters p = true ∧ smartKeep t p = true := by
  unfold searchSimilar at h
  have h1 := mem_smartFilterAndRankResults h
  have h2 := mem_insertionSortBy (List.mem_of_mem_take h1.1)
  have h3 := List.mem_filter.1 h2
  refine ⟨h3.1, ?_, h1.2⟩
  have := h3.2
  simp only [Bool.and_eq_true] at this
  exact this.1

/-! ### Search pipeline of the HTTP layer (src/main.py) -/

/-- `DocumentSearchResult` as constructed in `_perform_section_search` /
`_perform_fallback_search` from a raw result dictionary. -/
structure DSR where
  documentId : Int
  chunkId : String
  content : List Char
  score : ℚ
  /-- field "section" (`section` is a Lean keyword). -/
  docSection : String
  accessLevel : String
  chunkType : String
  pageNumber : Option Int
  sectionName : String
  metadataNonempty : Bool
deriving DecidableEq, Repr

/-- The conversion loop `DocumentSearchResult(... result.get(...) ...)`. -/
def toDSR (p : StorePoint) : DSR :=
  { documentId := p.documentId
    chunkId := p.chunkId
    content := p.content
    score := p.score
    docSection := p.docSection
    accessLevel := p.accessLevel
    chunkType := p.chunkType
    pageNumber := p.pageNumber
    sectionName := p.sectionName
    metadataNonempty := p.metadataNonempty }

/-- Descending score order on converted results. -/
def dsrScoreDescLe (a b : DSR) : Bool := b.score ≤ a.score

/-- `_perform_section_search` (src/main.py lines 1846-1902): filters
`{section: target, access_level?}`, threshold raised to
`max(score_threshold, 0.6)`, search `limit * 2`, convert, sort by score
descending, trim to `limit`. -/
def performSectionSearch (points : List StorePoint) (targetSection : String)
    (accessLevel : Option String) (limit : Nat) (scoreThreshold : ℚ) : List DSR :=
  let filters : SearchFilters :=
    { docSection := some targetSection
      accessLevel := if pyTruthyStr accessLevel then accessLevel else none }
  let adjusted := max scoreThreshold (mkRat 3 5)
  let raw := searchSimilar points (limit * 2) adjusted filters
  (insertionSortBy dsrScoreDescLe (raw.map toDSR)).take limit

/-- `_perform_fallback_search` (src/main.py lines 1904-2000): with a
non-empty section list, search each allowed section with the limit split
evenly, merge, sort by score descending, trim; otherwise one global
search. -/
def performFallbackSearch (points : List StorePoint) (accessLevel : Option String)
    (limit : Nat) (scoreThreshold : ℚ) (userSections : List String) : List DSR :=
  let baseFilters : SearchFilters :=
    { accessLevel := if pyTruthyStr accessLevel then accessLevel else none }
  if userSections ≠ [] then
    let allResults := userSections.flatMap (fun s =>
      (searchSimilar points (limit / userSections.length) scoreThreshold
        { baseFilters with docSection := some s }).map toDSR)
    (insertionSortBy dsrScoreDescLe allResults).take limit
  else
    (searchSimilar points limit scoreThreshold baseFilters).map toDSR

/-- One step of the `(document_id, chunk_id)` deduplication of
`search_documents_internal` step 3: insert a result, keeping the maximal
score per key. -/
def dedupInsert (acc : List DSR) (r : DSR) : List DSR :=
  if acc.any (fun x => x.documentId = r.documentId ∧ x.chunkId = r.chunkId) then
    acc.map (fun x =>
      if x.documentId = r.documentId ∧ x.chunkId = r.chunkId ∧ x.score < r.score then r else x)
  else acc ++ [r]

/-- The `unique_results` dictionary of `search_documents_internal`
(src/main.py lines 1830-1834), as a fold. -/
def dedupByKeyMax (l : List DSR) : List DSR := l.foldl dedupInsert []

theorem mem_dedupInsert {acc : List DSR} {r x : DSR}
    (h : x ∈ dedupInsert acc r) : x ∈ acc ∨ x = r := by
  unfold dedupInsert at h
  split at h
  · rcases List.mem_map.1 h with ⟨y, hy, hxy⟩
    by_cases hk : y.documentId = r.documentId ∧ y.chunkId = r.chunkId ∧ y.score < r.score
    · rw [if_pos hk] at hxy
      exact Or.inr hxy.symm
    · rw [if_neg hk] at hxy
      exact Or.inl (hxy ▸ hy)
  · rcases List.mem_append.1 h with h | h
    · exact Or.inl h
    · exact Or.inr (by simpa using h)

theorem mem_dedupByKeyMax {l : List DSR} {x : DSR}
    (h : x ∈ dedupByKeyMax l) : x ∈ l := by
  unfold dedupByKeyMax at h
  suffices H : ∀ (l : List DSR) (acc : List DSR), x ∈ l.foldl dedupInsert acc →
      x ∈ acc ∨ x ∈ l by
    rcases H l [] h with h' | h'
    · simp at h'
    · exact h'
  intro l
  induction l with
  | nil => intro acc h'; exact Or.inl h'
  | cons a t ih =>
    intro acc h'
    rcases ih _ h' with h'' | h''
    · rcases mem_dedupInsert h'' with h3 | h3
      · exact Or.inl h3
      · exact Or.inr (by simp [h3])
    · exact Or.inr (by simp [h''])

/-- Step 3 of `search_documents_internal` (lines 1818-1840): combine
section and fallback results (fallback only when not strict),
deduplicate keeping max score, sort by score descending, trim. -/
def combineAndRank (strict : Bool) (limit : Nat)
    (sectionResults fallbackResults : List DSR) : List DSR :=
  let allResults := sectionResults ++ (if strict then [] else fallbackResults)
  (insertionSortBy dsrScoreDescLe (dedupByKeyMax allResults)).take limit

/-- `search_documents_internal` (src/main.py lines 1735-1844).
`sectionArg`/`userSections` keep Python truthiness: `none` and the empty
value behave alike.  The exception path (coercing failures to `[]`) is
not modelled: all passes are pure here. -/
def searchDocumentsInternal (points : List StorePoint) (sectionArg : Option String)
    (accessLevel : Option String) (limit : Nat) (scoreThreshold : ℚ)
    (userSections : Option (List String)) (strict : Bool) : List DSR :=
  let us := userSections.getD []
  let fallbackOf : List DSR → List DSR := fun sectionResults =>
    -- section has been reset to None on every path that reaches the fallback
    let fallbackResults :=
      if !strict ∧ us ≠ [] then
        performFallbackSearch points accessLevel (limit * 2) (scoreThreshold * mkRat 3 5) us
      else []
    combineAndRank strict limit sectionResults fallbackResults
  match sectionArg with
  | some s =>
    if s = "" then fallbackOf []   -- Python: `if section:` is false for ""
    else if s ∈ us then
      let sectionResults := performSectionSearch points s accessLevel limit scoreThreshold
      if sectionResults = [] then
        if strict then [] else fallbackOf []
      else if strict then sectionResults.take limit
      else if sectionResults.any (fun r => scoreThreshold * mkRat 8 10 < r.score) then
        sectionResults.take limit
      else combineAndRank strict limit sectionResults
        (if !strict ∧ us ≠ [] then
          performFallbackSearch points accessLevel (limit * 2) (scoreThreshold * mkRat 3 5) us
        else [])
    else if strict then [] else fallbackOf []
  | none => fallbackOf []

/-- The `/search` endpoint `search_documents` (src/main.py lines 971-1000):
sections from the configured access map, strictness inferred from the
explicit flag or the presence of a section, access level overridable by
the request. -/
def searchEndpoint (points : List StorePoint) (tokenAccessLevel : String)
    (reqSection : Option String) (reqAccessLevel : Option String)
    (reqLimit : Nat) (reqScoreThreshold : ℚ) (reqStrict : Bool) : List DSR :=
  let userSections := getUserSections tokenAccessLevel
  let strictSearch := reqStrict || pyTruthyStr reqSection
  searchDocumentsInternal points reqSection
    (some (pyOrStr reqAccessLevel tokenAccessLevel)) reqLimit reqScoreThreshold
    (some userSections) strictSearch

/-- A section-specific pass only yields chunks of the target section:
the store filter pins the payload section. -/
theorem mem_performSectionSearch {points : List StorePoint} {s : String}
    {accessLevel : Option String} {limit : Nat} {t : ℚ} {r : DSR}
    (h : r ∈ performSectionSearch points s accessLevel limit t) :
    ∃ p ∈ points, r = toDSR p ∧ p.docSection = s := by
  unfold performSectionSearch at h
  have h1 := mem_insertionSortBy (List.mem_of_mem_take h)
  rcases List.mem_map.1 h1 with ⟨p, hp, hr⟩
  have h2 := mem_searchSimilar hp
  refine ⟨p, h2.1, hr.symm, ?_⟩
  have := h2.2.1
  simp only [matchesFilter, Bool.and_eq_true, decide_eq_true_eq] at this
  exact this.1.1.1.1.1.1.1

/-- With a non-empty allowed-section list, the fallback pass only yields
chunks whose section is one of the allowed sections. -/
theorem mem_performFallbackSearch {points : List StorePoint}
    {accessLevel : Option String} {limit : Nat} {t : ℚ} {us : List String} {r : DSR}
    (hus : us ≠ []) (h : r ∈ performFallbackSearch points accessLevel limit t us) :
    r.docSection ∈ us := by
  unfold performFallbackSearch at h
  rw [if_pos (by simpa using hus)] at h
  have h1 := mem_insertionSortBy (List.mem_of_mem_take h)
  rcases List.mem_flatMap.1 h1 with ⟨s, hs, hmem⟩
  rcases List.mem_map.1 hmem with ⟨p, hp, hr⟩
  have h2 := mem_searchSimilar hp
  have hsec : p.docSection = s := by
    have := h2.2.1
    simp only [matchesFilter, Bool.and_eq_true, decide_eq_true_eq] at this
    exact this.1.1.1.1.1.1.1
  rw [← hr]
  simpa [toDSR, hsec] using hs

/-- Members of the combined ranking come from one of the two passes
(only the section pass when strict). -/
theorem mem_combineAndRank {strict : Bool} {limit : Nat}
    {sectionResults fallbackResults : List DSR} {r : DSR}
    (h : r ∈ combineAndRank strict limit sectionResults fallbackResults) :
    r ∈ sectionResults ∨ (strict = false ∧ r ∈ fallbackResults) := by
  unfold combineAndRank at h
  have h1 := mem_dedupByKeyMax (mem_insertionSortBy (List.mem_of_mem_take h))
  rcases List.mem_append.1 h1 with h2 | h2
  · exact Or.inl h2
  · cases strict with
    | false => exact Or.inr ⟨rfl, by simpa using h2⟩
    | true => simp at h2

/-- A concrete `restaurant_ops` chunk: a document uploaded by a
`restaurant_management` principal into section `restaurant_ops`. -/
def pRestaurantOps : StorePoint :=
  { score := mkRat 9 10
    documentId := 1
    chunkId := "1_0"
    content := List.replicate 30 'a'
    docSection := "restaurant_ops"
    accessLevel := "restaurant_management"
    chunkType := "text"
    pageNumber := none
    sectionName := ""
    sheetName := ""
    documentName := "ops"
    metadataNonempty := true
    chunkIndex := 0
    contentLength := 30
    hasImages := false
    fileType := "pdf" }

/-- A concrete `procedures` chunk. -/
def pProcedures : StorePoint :=
  { pRestaurantOps with documentId := 2, chunkId := "2_0", docSection := "procedures" }

/-- C1 counterexample: a `kitchen_management` principal (whose detailed
access level denies `restaurant_ops`) issues a `/search` request without
a target section and with strictness off, overriding the access-level
filter as the endpoint permits; the result contains a `restaurant_ops`
chunk.  Moreover the `/chat` handler hands `restaurant_ops` to retrieval
for every principal. -/
theorem claim1_counterexample :
    checkSectionAccess "kitchen_management" "restaurant_ops" "read_only" = false ∧
    "restaurant_ops" ∈ getUserSections "kitchen_management" ∧
    "restaurant_ops" ∈ chatUserSections ∧
    (searchEndpoint [pRestaurantOps] "kitchen_management" none
        (some "restaurant_management") 10 (mkRat 1 2) false).any
      (fun r => r.docSection = "restaurant_ops") = true := by
  refine ⟨by decide, by decide, by decide, ?_⟩
  decide

/-- C1 (amended): for every retrieval call without a target section and
with strictness off, every returned chunk's section belongs to the
`user_sections` list given to the call — unauthorized sections are
excluded by the per-section fallback filters before ranking.  (The
configured `user_sections`, however, temporarily contain every section
for every access level, so `restaurant_ops` itself is not excluded.) -/
theorem claim1_fallback_restricted_to_user_sections
    (points : List StorePoint) (accessLevel : Option String) (limit : Nat)
    (t : ℚ) (us : List String) (r : DSR)
    (h : r ∈ searchDocumentsInternal points none accessLevel limit t (some us) false) :
    r.docSection ∈ us := by
  unfold searchDocumentsInternal at h
  simp only [Option.getD_some] at h
  rcases mem_combineAndRank h with h1 | h1
  · simp at h1
  · by_cases hus : us = []
    · rw [if_neg (by simp [hus])] at h1
      simp at h1
    · rw [if_pos (by simpa using hus)] at h1
      exact mem_performFallbackSearch hus h1.2

/-- Witness for the amended C1 theorem at a concrete store and call. -/
theorem claim1_fallback_restricted_witness :
    (toDSR pRestaurantOps).docSection ∈ ["restaurant_ops", "procedures", "standards"] :=
  claim1_fallback_restricted_to_user_sections [pRestaurantOps]
    (some "restaurant_management") 10 (mkRat 1 2)
    ["restaurant_ops", "procedures", "standards"] (toDSR pRestaurantOps) (by decide)

/-- C3: for every retrieval call with `strict_section_search=true` and
target section `S`, every returned chunk has section `S`; when
`S` is empty or outside the caller's allowed sections, the result is
empty. -/
theorem claim3_strict_section_search
    (points : List StorePoint) (s : String) (accessLevel : Option String)
    (limit : Nat) (t : ℚ) (us : List String) :
    (∀ r ∈ searchDocumentsInternal points (some s) accessLevel limit t (some us) true,
        r.docSection = s) ∧
    (s = "" → searchDocumentsInternal points (some s) accessLevel limit t (some us) true = []) ∧
    (s ∉ us → searchDocumentsInternal points (some s) accessLevel limit t (some us) true = []) := by
  have hempty : ∀ (sr : List DSR), combineAndRank true limit sr [] =
      (insertionSortBy dsrScoreDescLe (dedupByKeyMax (sr ++ []))).take limit := by
    intro sr; rfl
  by_cases hs : s = ""
  · subst hs
    have hres : searchDocumentsInternal points (some "") accessLevel limit t (some us) true
        = [] := by
      unfold searchDocumentsInternal
      simp [combineAndRank, dedupByKeyMax, insertionSortBy]
    exact ⟨by intro r hr; rw [hres] at hr; simp at hr, fun _ => hres, fun _ => hres⟩
  · by_cases hmem : s ∈ us
    · refine ⟨?_, fun h => absurd h hs, fun h => absurd hmem h⟩
      intro r hr
      unfold searchDocumentsInternal at hr
      simp only [Option.getD_some] at hr
      rw [if_neg hs, if_pos hmem] at hr
      by_cases hsec :
          performSectionSearch points s accessLevel limit t = []
      · rw [if_pos hsec] at hr
        simp at hr
      · rw [if_neg hsec] at hr
        simp only [if_true, ite_true] at hr
        have := mem_performSectionSearch (List.mem_of_mem_take hr)
        rcases this with ⟨p, _, hrp, hps⟩
        rw [hrp]
        exact hps
    · have hres : searchDocumentsInternal points (some s) accessLevel limit t (some us) true
          = [] := by
        unfold searchDocumentsInternal
        simp only [Option.getD_some]
        rw [if_neg hs, if_neg hmem]
        simp
      exact ⟨by intro r hr; rw [hres] at hr; simp at hr, fun h => absurd h hs, fun _ => hres⟩

/-- Witness for C3: a concrete strict search inside `procedures` returns
exactly the `procedures` chunk (its section is `procedures`), and the
same strict call aimed at a section outside the allowed list returns
nothing. -/
theorem claim3_strict_section_search_witness :
    (toDSR pProcedures).docSection = "procedures" ∧
    searchDocumentsInternal [pProcedures] (some "restaurant_ops")
      (some "restaurant_management") 10 (mkRat 1 2) (some ["procedures"]) true = [] := by
  constructor
  · exact (claim3_strict_section_search [pProcedures] "procedures"
      (some "restaurant_management") 10 (mkRat 1 2) ["procedures"]).1
      (toDSR pProcedures) (by decide)
  · exact (claim3_strict_section_search [pProcedures] "restaurant_ops"
      (some "restaurant_management") 10 (mkRat 1 2) ["procedures"]).2.2 (by decide)

/-- C2 counterexample: a retrieval call with requested threshold 0.7
returns a chunk whose score 0.65 is below the requested threshold — the
smart filter only enforces 0.9 x the requested threshold. -/
theorem claim2_counterexample :
    (let p : StorePoint :=
      { pRestaurantOps with score := mkRat 13 20, docSection := "procedures" }
     p ∈ searchSimilar [p] 10 (mkRat 7 10) {} ∧ p.score < mkRat 7 10) := by
  constructor
  · decide
  · decide

/-- C2 (amended): for every retrieval call with requested score
threshold `t`, every returned chunk has score at least the effective
threshold `0.9 * t` and content at least 20 characters long. -/
theorem claim2_returned_chunks_meet_effective_threshold
    (points : List StorePoint) (limit : Nat) (t : ℚ) (filters : SearchFilters)
    (p : StorePoint) (h : p ∈ searchSimilar points limit t filters) :
    t * mkRat 9 10 ≤ p.score ∧ 20 ≤ p.content.length := by
  have hk := (mem_searchSimilar h).2.2
  simp only [smartKeep, Bool.and_eq_true, decide_eq_true_eq] at hk
  refine ⟨hk.1.2, ?_⟩
  exact le_trans hk.1.1 (length_pyStrip_le p.content)

/-- Witness for the amended C2 theorem at a concrete store and call. -/
theorem claim2_effective_threshold_witness :
    mkRat 7 10 * mkRat 9 10 ≤ pProcedures.score ∧ 20 ≤ pProcedures.content.length :=
  claim2_returned_chunks_meet_effective_threshold [pProcedures] 10 (mkRat 7 10) {}
    pProcedures (by decide)

/-- C8: the title resolution strips the file extension after checking
for the placeholder `"string"` and for blankness, so a stored title
`"string.txt"` resolves to the literal `"string"` and a stored title
`".txt"` resolves to the empty string — on both
`get_better_document_name` and the resolution inside
`get_document_info`. -/
theorem claim8_title_resolution_failing_inputs :
    getBetterDocumentName (some ⟨"string.txt"⟩) 7 = "string".data ∧
    getBetterDocumentName (some ⟨".txt"⟩) 7 = [] ∧
    getDocumentInfoTitle (some "string.txt") none none 7 = "string".data ∧
    getDocumentInfoTitle none (some ".env") none 7 = [] := by
  refine ⟨by decide, by decide, by decide, by decide⟩

/-! ### Session context & memory policy (src/services/session_context_service.py) -/

/-- One conversation message as read by `should_use_existing_context`. -/
structure SCMessage where
  role : String
  content : String
deriving DecidableEq, Repr

/-- The last user message scan (session_context_service.py lines
392-397): walk the messages in reverse, take the first user role. -/
def lastUserMessage (messages : List SCMessage) : Option String :=
  (messages.reverse.find? (fun m => m.role = "user")).map (·.content)

/-- `should_use_existing_context` (session_context_service.py lines
376-436).  The clarifying-question classifier and the embedding-based
cosine similarity are external inputs of the decision (the classifier is
lexical Russian-language analysis, the similarity comes from the
embedding provider), so both are parameters; `snapshots` is the
session's `document_context`.  Returns (use_existing, context,
strategy). -/
def shouldUseExistingContext {α : Type} (snapshots : List α)
    (messages : List SCMessage) (isClarifying : Bool) (similarity : ℚ)
    (threshold : ℚ := mkRat 3 5) : Bool × List α × String :=
  if snapshots.isEmpty then (false, [], "new_search")
  else if messages.length < 2 then (false, [], "new_search")
  else if !pyTruthyStr (lastUserMessage messages) then (false, [], "new_search")
  else if isClarifying then (true, snapshots, "context_reuse")
  else if threshold < similarity then (true, snapshots, "context_reuse")
  else if mkRat 3 10 < similarity then (true, snapshots, "hybrid_context")
  else (false, [], "new_search")

/-- C4: when the session has document context, at least two messages and
a (truthy) last user message, and the query is not classified as
clarifying, the memory policy picks the strategy from the cosine
similarity: above 0.6 reuse, in (0.3, 0.6] hybrid, at most 0.3 new
search. -/
theorem claim4_memory_policy_thresholds {α : Type} (snapshots : List α)
    (messages : List SCMessage) (similarity : ℚ)
    (hctx : snapshots ≠ []) (hmsgs : 2 ≤ messages.length)
    (hlast : pyTruthyStr (lastUserMessage messages) = true) :
    (mkRat 3 5 < similarity →
      shouldUseExistingContext snapshots messages false similarity =
        (true, snapshots, "context_reuse")) ∧
    (mkRat 3 10 < similarity → similarity ≤ mkRat 3 5 →
      shouldUseExistingContext snapshots messages false similarity =
        (true, snapshots, "hybrid_context")) ∧
    (similarity ≤ mkRat 3 10 →
      shouldUseExistingContext snapshots messages false similarity =
        (false, [], "new_search")) := by
  have hm : ¬ messages.length < 2 := by omega
  have he : ¬ (snapshots.isEmpty = true) := by simp [hctx]
  refine ⟨?_, ?_, ?_⟩
  · intro hσ
    unfold shouldUseExistingContext
    rw [if_neg he, if_neg hm, if_neg (by simp [hlast]),
      if_neg (by simp), if_pos hσ]
  · intro hσ1 hσ2
    unfold shouldUseExistingContext
    rw [if_neg he, if_neg hm, if_neg (by simp [hlast]),
      if_neg (by simp), if_neg (not_lt.2 hσ2), if_pos hσ1]
  · intro hσ
    unfold shouldUseExistingContext
    have h1 : ¬ mkRat 3 5 < similarity := by
      refine not_lt.2 (le_trans hσ ?_)
      decide
    rw [if_neg he, if_neg hm, if_neg (by simp [hlast]),
      if_neg (by simp), if_neg h1, if_neg (not_lt.2 hσ)]

/-- Witness for C4 at a concrete two-message session. -/
theorem claim4_memory_policy_witness :
    shouldUseExistingContext [(1 : Nat)]
      [⟨"user", "q1"⟩, ⟨"assistant", "a1"⟩] false (mkRat 7 10) =
      (true, [1], "context_reuse") ∧
    shouldUseExistingContext [(1 : Nat)]
      [⟨"user", "q1"⟩, ⟨"assistant", "a1"⟩] false (mkRat 1 2) =
      (true, [1], "hybrid_context") ∧
    shouldUseExistingContext [(1 : Nat)]
      [⟨"user", "q1"⟩, ⟨"assistant", "a1"⟩] false (mkRat 1 5) =
      (false, [], "new_search") := by
  refine ⟨?_, ?_, ?_⟩
  · exact (claim4_memory_policy_thresholds [(1 : Nat)]
      [⟨"user", "q1"⟩, ⟨"assistant", "a1"⟩] (mkRat 7 10)
      (by decide) (by decide) (by decide)).1 (by decide)
  · exact (claim4_memory_policy_thresholds [(1 : Nat)]
      [⟨"user", "q1"⟩, ⟨"assistant", "a1"⟩] (mkRat 1 2)
      (by decide) (by decide) (by decide)).2.1 (by decide) (by decide)
  · exact (claim4_memory_policy_thresholds [(1 : Nat)]
      [⟨"user", "q1"⟩, ⟨"assistant", "a1"⟩] (mkRat 1 5)
      (by decide) (by decide) (by decide)).2.2 (by decide)

/-! ### Source filter (src/main.py, `_filter_relevant_sources`, lines 2164-2258) -/

/-- A context chunk as read by the source filter:
`chunk.get('document_id')`, `chunk.get('score', 0)`,
`len(chunk.get('content', ''))`. -/
structure CtxChunk where
  documentId : Option Int
  score : ℚ
  content : List Char
deriving DecidableEq, Repr

/-- A compact source dictionary; the filter reads only
`source.get('document_id')`.  `label` stands for the remaining keys so
that distinct sources are distinguishable. -/
structure SourceItem where
  documentId : Option Int
  label : String
deriving DecidableEq, Repr

/-- Python truthiness of the chunk's `document_id` (`if doc_id:`):
`None` and `0` are falsy. -/
def truthyId : Option Int → Option Int
  | some n => if n = 0 then none else some n
  | none => none

/-- Keys of the `document_usage` dictionary: the distinct truthy
document ids of the context chunks, in first-appearance order. -/
def usageDocIds (chunks : List CtxChunk) : List Int :=
  dedupKeepFirst (chunks.filterMap (fun c => truthyId c.documentId))

/-- The chunks aggregated under key `d` of `document_usage`. -/
def usageChunks (chunks : List CtxChunk) (d : Int) : List CtxChunk :=
  chunks.filter (fun c => truthyId c.documentId = some d)

/-- `document_usage[d]['max_score']` (starts at 0, `max` per chunk). -/
def usageMaxScore (chunks : List CtxChunk) (d : Int) : ℚ :=
  (usageChunks chunks d).foldl (fun m c => max m c.score) 0

/-- `document_usage[d]['content_length']`. -/
def usageTotalLen (chunks : List CtxChunk) (d : Int) : Nat :=
  ((usageChunks chunks d).map (·.content.length)).sum

/-- `len(document_usage[d]['chunks'])`. -/
def usageCount (chunks : List CtxChunk) (d : Int) : Nat :=
  (usageChunks chunks d).length

/-- The relevance criterion (lines 2207-2212): `max_score > 0.7` or
(`max_score > 0.5` and `content_length > 200` and more than one chunk). -/
def isRelevantDoc (chunks : List CtxChunk) (d : Int) : Bool :=
  (mkRat 7 10 < usageMaxScore chunks d) ||
  ((mkRat 1 2 < usageMaxScore chunks d) &&
    (200 < usageTotalLen chunks d) && (1 < usageCount chunks d))

/-- Python `max(l, key=key)`: the first element with the maximal key. -/
def pyMaxBy (l : List α) (key : α → ℚ) : Option α :=
  match l with
  | [] => none
  | x :: xs => some (xs.foldl (fun best y => if key best < key y then y else best) x)

theorem foldl_pyMax_mem {key : α → ℚ} :
    ∀ (xs : List α) (a : α),
      xs.foldl (fun best y => if key best < key y then y else best) a ∈ a :: xs := by
  intro xs
  induction xs with
  | nil => intro a; simp
  | cons y ys ih =>
    intro a
    simp only [List.foldl_cons]
    by_cases hk : key a < key y
    · rw [if_pos hk]
      rcases List.mem_cons.1 (ih y) with h' | h' <;> simp [h']
    · rw [if_neg hk]
      rcases List.mem_cons.1 (ih a) with h' | h' <;> simp [h']

theorem mem_pyMaxBy {l : List α} {key : α → ℚ} {b : α}
    (h : pyMaxBy l key = some b) : b ∈ l := by
  match l with
  | [] => simp [pyMaxBy] at h
  | x :: xs =>
    simp only [pyMaxBy, Option.some.injEq] at h
    exact h ▸ foldl_pyMax_mem xs x

/-- `if doc_id in document_usage:` followed by the relevance test: a
source is kept iff its document id is a tracked key and relevant. -/
def sourceKeep (chunks : List CtxChunk) (s : SourceItem) : Bool :=
  match s.documentId with
  | some d => decide (d ∈ usageDocIds chunks) && isRelevantDoc chunks d
  | none => false

/-- The fallback ranking key
`document_usage.get(s.get('document_id', 0), {}).get('max_score', 0)`. -/
def fallbackKey (chunks : List CtxChunk) (s : SourceItem) : ℚ :=
  match s.documentId with
  | some d => if d ∈ usageDocIds chunks then usageMaxScore chunks d else 0
  | none => 0

/-- `_filter_relevant_sources` (src/main.py lines 2164-2258).  The
`sources`/`context_chunks` emptiness guard returns `sources` unchanged;
otherwise keep the sources whose document is materially relevant, and if
nothing survives fall back to the single source with the highest usage
max-score (when its id is truthy and tracked). -/
def filterRelevantSources (sources : List SourceItem) (chunks : List CtxChunk) :
    List SourceItem :=
  if sources.isEmpty || chunks.isEmpty then sources
  else
    let filtered := sources.filter (sourceKeep chunks)
    if filtered.isEmpty then
      match pyMaxBy sources (fallbackKey chunks) with
      | some best =>
        match best.documentId with
        | some d => if d ≠ 0 ∧ d ∈ usageDocIds chunks then [best] else filtered
        | none => filtered
      | none => filtered
    else filtered

/-- Tracked usage keys are truthy document ids, hence nonzero. -/
theorem usageDocIds_ne_zero {chunks : List CtxChunk} {d : Int}
    (h : d ∈ usageDocIds chunks) : d ≠ 0 := by
  have h1 := mem_dedupKeepFirst h
  rcases List.mem_filterMap.1 h1 with ⟨c, _, hc⟩
  unfold truthyId at hc
  cases hcd : c.documentId with
  | none => rw [hcd] at hc; simp at hc
  | some n =>
    rw [hcd] at hc
    by_cases hn : n = 0
    · simp [hn] at hc
    · simp only [hn, if_false] at hc
      simp only [Option.some.injEq] at hc
      exact hc ▸ hn

/-- C5 counterexample: the emptiness guard returns `sources` unchanged,
so a call with no sources but a non-empty context emits nothing (the
claim requires a non-empty citation list), and a call with a source but
an empty context emits one citation though the context holds zero
distinct documents (the claim bounds the output by that count). -/
theorem claim5_counterexample :
    (let c : CtxChunk := ⟨some 1, mkRat 9 10, List.replicate 30 'a'⟩
     [c] ≠ [] ∧ filterRelevantSources [] [c] = []) ∧
    (filterRelevantSources [⟨some 5, "stale"⟩] []).length = 1 ∧
    usageDocIds ([] : List CtxChunk) = [] := by
  refine ⟨⟨by decide, by decide⟩, by decide, by decide⟩

/-- C5 (amended): when the source list is non-empty, the context is
non-empty, every source's document id is a tracked (truthy) context
document id, and the sources carry pairwise-distinct document ids —
which is how the chat handler builds the compacted per-document source
list — the filter emits at least one citation and at most one per
distinct (truthy) context document. -/
theorem claim5_source_filter_bounds (sources : List SourceItem) (chunks : List CtxChunk)
    (hs : sources ≠ []) (hc : chunks ≠ [])
    (hcov : ∀ s ∈ sources, ∃ d, s.documentId = some d ∧ d ∈ usageDocIds chunks)
    (hnodup : (sources.map (·.documentId)).Nodup) :
    filterRelevantSources sources chunks ≠ [] ∧
    (filterRelevantSources sources chunks).length ≤ (usageDocIds chunks).length := by
  unfold filterRelevantSources
  rw [if_neg (by simp [hs, hc])]
  dsimp only
  by_cases hfe : (sources.filter (sourceKeep chunks)).isEmpty = true
  · rw [if_pos hfe]
    cases hby : pyMaxBy sources (fallbackKey chunks) with
    | none =>
      cases hsrc : sources with
      | nil => exact absurd hsrc hs
      | cons x xs => rw [hsrc] at hby; simp [pyMaxBy] at hby
    | some best =>
      have hbmem := mem_pyMaxBy hby
      rcases hcov best hbmem with ⟨d, hbd, hdmem⟩
      simp only [hbd]
      rw [if_pos ⟨usageDocIds_ne_zero hdmem, hdmem⟩]
      refine ⟨by simp, ?_⟩
      have hpos : 0 < (usageDocIds chunks).length :=
        List.length_pos.2 (List.ne_nil_of_mem hdmem)
      simpa using hpos
  · rw [if_neg hfe]
    refine ⟨by simpa [List.isEmpty_iff] using hfe, ?_⟩
    have hsub : List.Sublist (sources.filter (sourceKeep chunks)) sources :=
      List.filter_sublist _
    have hnd : ((sources.filter (sourceKeep chunks)).map (·.documentId)).Nodup :=
      List.Nodup.sublist (hsub.map (·.documentId)) hnodup
    have hmemmap : ∀ x ∈ (sources.filter (sourceKeep chunks)).map (·.documentId),
        x ∈ (usageDocIds chunks).map some := by
      intro x hx
      rcases List.mem_map.1 hx with ⟨s, hsmem, hxs⟩
      have hkeep := (List.mem_filter.1 hsmem).2
      unfold sourceKeep at hkeep
      cases hsd : s.documentId with
      | none => rw [hsd] at hkeep; simp at hkeep
      | some d =>
        rw [hsd] at hkeep
        simp only [Bool.and_eq_true, decide_eq_true_eq] at hkeep
        rw [← hxs, hsd]
        exact List.mem_map_of_mem some hkeep.1
    have hcard : ((sources.filter (sourceKeep chunks)).map (·.documentId)).length ≤
        ((usageDocIds chunks).map some).length := by
      have h1 : ((sources.filter (sourceKeep chunks)).map (·.documentId)).toFinset.card =
          ((sources.filter (sourceKeep chunks)).map (·.documentId)).length :=
        List.toFinset_card_of_nodup hnd
      have h2 : ((sources.filter (sourceKeep chunks)).map (·.documentId)).toFinset ⊆
          ((usageDocIds chunks).map some).toFinset := by
        intro x hx
        exact List.mem_toFinset.2 (hmemmap x (List.mem_toFinset.1 hx))
      have h3 := Finset.card_le_card h2
      have h4 := List.toFinset_card_le ((usageDocIds chunks).map some)
      omega
    simpa using hcard

/-- Witness for the amended C5 theorem at a concrete relevant source. -/
theorem claim5_source_filter_witness :
    filterRelevantSources [⟨some 1, "doc1"⟩]
      [⟨some 1, mkRat 9 10, List.replicate 30 'a'⟩] ≠ [] ∧
    (filterRelevantSources [⟨some 1, "doc1"⟩]
      [⟨some 1, mkRat 9 10, List.replicate 30 'a'⟩]).length ≤
      (usageDocIds [⟨some 1, mkRat 9 10, List.replicate 30 'a'⟩]).length :=
  claim5_source_filter_bounds [⟨some 1, "doc1"⟩]
    [⟨some 1, mkRat 9 10, List.replicate 30 'a'⟩]
    (by decide) (by decide)
    (by
      intro s hs
      simp only [List.mem_singleton] at hs
      subst hs
      exact ⟨1, by decide, by decide⟩)
    (by decide)

/-! ### Chunker (src/services/document_processor.py)

`_split_text_into_chunks` is only ever called by the processor with its
default parameters `max_chunk_size=500`, `overlap=50`; the embedding
fixes them (the parser has its own, separate splitter with different
parameters and an iteration cap). -/

/-- One backward scan step of Python `for i in range(hi, lo, -1)`:
`count = hi - lo` indices remain.  Indices stay inside the text at every
call site (`end < len(text)` guards the scans), so the out-of-range
default `' '` is never consulted by the scanned predicates. -/
def scanBackAux (text : List Char) (pred : Char → Bool) : Nat → Nat → Option Nat
  | 0, _ => none
  | count + 1, hi =>
    if pred (text.getD hi ' ') then some hi
    else scanBackAux text pred count (hi - 1)

/-- Python `for i in range(hi, lo, -1): if pred(text[i]): found i`. -/
def scanBack (text : List Char) (pred : Char → Bool) (hi lo : Nat) : Option Nat :=
  scanBackAux text pred (hi - lo) hi

/-- `text[i] in '.!?'` (document_processor.py line 231). -/
def isSentenceEnd (c : Char) : Bool := c = '.' || c = '!' || c = '?'

/-- The `end` adjustment (lines 228-240) when `end < len(text)`:
search the last 100 characters backwards for a sentence terminator; if
`end` is unchanged, search again for a newline. -/
def adjustEnd (text : List Char) (start : Nat) : Nat :=
  let e1 :=
    match scanBack text isSentenceEnd (start + 500) (start + 400) with
    | some i => i + 1
    | none => start + 500
  if e1 = start + 500 then
    match scanBack text (fun c => c = '\n') (start + 500) (start + 400) with
    | some i => i + 1
    | none => e1
  else e1

/-- The per-iteration `end` (lines 225-240). -/
def chunkEnd (text : List Char) (start : Nat) : Nat :=
  if start + 500 < text.length then adjustEnd text start else start + 500

/-- The per-iteration advance `start = end - overlap` (line 247). -/
def nextStart (text : List Char) (start : Nat) : Nat :=
  chunkEnd text start - 50

theorem scanBackAux_bounds {text : List Char} {pred : Char → Bool} :
    ∀ {count hi i : Nat}, count ≤ hi → scanBackAux text pred count hi = some i →
      hi - count < i ∧ i ≤ hi := by
  intro count
  induction count with
  | zero => intro hi i _ h; simp [scanBackAux] at h
  | succ n ih =>
    intro hi i hle h
    unfold scanBackAux at h
    by_cases hp : pred (text.getD hi ' ') = true
    · rw [if_pos hp] at h
      simp only [Option.some.injEq] at h
      omega
    · rw [if_neg hp] at h
      have := ih (by omega) h
      omega

theorem scanBack_bounds {text : List Char} {pred : Char → Bool} {hi lo i : Nat}
    (hle : lo ≤ hi) (h : scanBack text pred hi lo = some i) :
    lo < i ∧ i ≤ hi := by
  have := scanBackAux_bounds (by omega : hi - lo ≤ hi) h
  omega

/-- The adjusted `end` stays within the backward-search window:
`start + 402 ≤ adjustEnd ≤ start + 501`. -/
theorem adjustEnd_bounds (text : List Char) (start : Nat) :
    start + 402 ≤ adjustEnd text start ∧ adjustEnd text start ≤ start + 501 := by
  unfold adjustEnd
  cases h1 : scanBack text isSentenceEnd (start + 500) (start + 400) with
  | some i =>
    have hb := scanBack_bounds (by omega) h1
    dsimp only
    by_cases he : i + 1 = start + 500
    · rw [if_pos he]
      cases h2 : scanBack text (fun c => c = '\n') (start + 500) (start + 400) with
      | some j =>
        have hb2 := scanBack_bounds (by omega) h2
        dsimp only
        show start + 402 ≤ j + 1 ∧ j + 1 ≤ start + 501
        omega
      | none =>
        dsimp only
        show start + 402 ≤ i + 1 ∧ i + 1 ≤ start + 501
        omega
    · rw [if_neg he]
      show start + 402 ≤ i + 1 ∧ i + 1 ≤ start + 501
      omega
  | none =>
    dsimp only
    rw [if_pos rfl]
    cases h2 : scanBack text (fun c => c = '\n') (start + 500) (start + 400) with
    | some j =>
      have hb2 := scanBack_bounds (by omega) h2
      dsimp only
      show start + 402 ≤ j + 1 ∧ j + 1 ≤ start + 501
      omega
    | none =>
      dsimp only
      show start + 402 ≤ start + 500 ∧ start + 500 ≤ start + 501
      omega

/-- The advance bound that makes the loop well-founded:
each iteration moves `start` forward by at least 352. -/
theorem nextStart_lower (text : List Char) (start : Nat) :
    start + 352 ≤ nextStart text start := by
  unfold nextStart chunkEnd
  by_cases h : start + 500 < text.length
  · rw [if_pos h]
    have := adjustEnd_bounds text start
    omega
  · rw [if_neg h]
    omega

/-- `_split_text_into_chunks`'s `while` loop (lines 224-249); the
`start >= len(text)` break coincides with the loop condition. -/
def splitLoop (text : List Char) (start : Nat) : List (List Char) :=
  if text.length ≤ start then []
  else
    let e := chunkEnd text start
    let chunk := pyStrip (pySlice text start e)
    let rest := splitLoop text (nextStart text start)
    if chunk = [] then rest else chunk :: rest
termination_by text.length - start
decreasing_by
  have := nextStart_lower text start
  omega

/-- `_split_text_into_chunks` (document_processor.py lines 216-251) at
its default parameters. -/
def splitTextIntoChunks (text : List Char) : List (List Char) :=
  if text.length ≤ 500 then [text]
  else splitLoop text 0

/-- Count of iterations the `while` loop performs (entries into the
body); the splitter has no iteration counter of its own. -/
def splitLoopIters (text : List Char) (start : Nat) : Nat :=
  if text.length ≤ start then 0
  else 1 + splitLoopIters text (nextStart text start)
termination_by text.length - start
decreasing_by
  have := nextStart_lower text start
  omega

/-- Iterations performed by a `_split_text_into_chunks` call. -/
def splitIters (text : List Char) : Nat :=
  if text.length ≤ 500 then 0 else splitLoopIters text 0

theorem length_pySlice (l : List Char) (a b : Nat) :
    (pySlice l a b).length = min b l.length - a := by
  simp [pySlice]

theorem mem_pySlice {l : List Char} {a b : Nat} {c : Char}
    (h : c ∈ pySlice l a b) : c ∈ l :=
  List.take_subset _ _ (List.drop_subset _ _ h)

theorem pyStrip_eq_nil {l : List Char} (h : ∀ c ∈ l, pyIsSpace c = true) :
    pyStrip l = [] := by
  have h1 : l.dropWhile pyIsSpace = [] := List.dropWhile_eq_nil_iff.2 h
  simp [pyStrip, h1]

theorem chunkEnd_lower (text : List Char) (start : Nat) :
    start + 402 ≤ chunkEnd text start := by
  unfold chunkEnd
  by_cases h : start + 500 < text.length
  · rw [if_pos h]; exact (adjustEnd_bounds text start).1
  · rw [if_neg h]; omega

theorem chunkEnd_upper (text : List Char) (start : Nat) :
    chunkEnd text start ≤ start + 501 := by
  unfold chunkEnd
  by_cases h : start + 500 < text.length
  · rw [if_pos h]; exact (adjustEnd_bounds text start).2
  · rw [if_neg h]; omega

theorem nextStart_upper (text : List Char) (start : Nat) :
    nextStart text start ≤ start + 451 := by
  unfold nextStart
  have := chunkEnd_upper text start
  omega

/-- On the final stretch (`start + 500` already reaches the end), the
raw boundary is kept and the advance is exactly 450. -/
theorem nextStart_final {text : List Char} {start : Nat}
    (h : text.length ≤ start + 500) : nextStart text start = start + 450 := by
  unfold nextStart chunkEnd
  rw [if_neg (by omega)]
  omega

/-- C9: the split loop needs no iteration counter: every iteration
advances `start` by at least 351 characters (in fact 352), and on the
final stretch (when `start + 500` reaches the end of the text) by
exactly 450; the splitter is therefore total, as witnessed by
`splitLoop`/`splitTextIntoChunks` being defined by recursion on
`text.length - start`. -/
theorem claim9_split_loop_advance (text : List Char) (start : Nat) :
    start + 351 ≤ nextStart text start ∧
    (text.length ≤ start + 500 → nextStart text start = start + 450) := by
  refine ⟨?_, nextStart_final⟩
  have := nextStart_lower text start
  omega

/-- Witness for C9 at a concrete text and position. -/
theorem claim9_split_loop_advance_witness :
    0 + 351 ≤ nextStart (List.replicate 10 'a') 0 ∧
    nextStart (List.replicate 10 'a') 0 = 0 + 450 :=
  ⟨(claim9_split_loop_advance (List.replicate 10 'a') 0).1,
   (claim9_split_loop_advance (List.replicate 10 'a') 0).2 (by simp)⟩

/-- An all-whitespace text yields no chunks: every slice strips to
empty and is discarded. -/
theorem splitLoop_all_space {text : List Char}
    (hws : ∀ c ∈ text, pyIsSpace c = true) :
    ∀ start, splitLoop text start = [] := by
  have H : ∀ n start, text.length - start ≤ n → splitLoop text start = [] := by
    intro n
    induction n with
    | zero =>
      intro start hle
      rw [splitLoop, if_pos (by omega)]
    | succ n ih =>
      intro start hle
      by_cases h : text.length ≤ start
      · rw [splitLoop, if_pos h]
      · rw [splitLoop, if_neg h]
        have hnext := nextStart_lower text start
        have hrest := ih (nextStart text start) (by omega)
        have hchunk : pyStrip (pySlice text start (chunkEnd text start)) = [] :=
          pyStrip_eq_nil (fun c hc => hws c (mem_pySlice hc))
        simp [hchunk, hrest]
  intro start
  exact H (text.length - start) start le_rfl

/-- C6 counterexample: a 1050-character input made of spaces yields no
chunks at all (each window strips to empty), refuting "every input of
1050 characters yields at least 3 chunks". -/
theorem claim6_counterexample :
    (List.replicate 1050 ' ').length = 1050 ∧
    splitTextIntoChunks (List.replicate 1050 ' ') = [] := by
  refine ⟨List.length_replicate 1050 ' ', ?_⟩
  rw [splitTextIntoChunks,
    if_neg (by rw [List.length_replicate]; omega)]
  refine splitLoop_all_space ?_ 0
  intro c hc
  have := List.eq_of_mem_replicate hc
  subst this
  decide

/-- A clamped slice end beyond the text length can be replaced by any
other end beyond the length. -/
theorem pySlice_clamp {l : List Char} {a b b' : Nat}
    (hb : l.length ≤ b) (hb' : l.length ≤ b') :
    pySlice l a b = pySlice l a b' := by
  unfold pySlice
  rw [List.take_of_length_le hb, List.take_of_length_le hb']

theorem splitLoop_nil {text : List Char} {start : Nat}
    (h : text.length ≤ start) : splitLoop text start = [] := by
  rw [splitLoop, if_pos h]

/-- One iteration of the split loop on a whitespace-free text keeps the
raw slice (strip is the identity, the slice is non-empty). -/
theorem splitLoop_cons_of {text : List Char} {start : Nat}
    (h1 : start < text.length) (hws : ∀ c ∈ text, pyIsSpace c = false) :
    splitLoop text start =
      pySlice text start (chunkEnd text start) :: splitLoop text (nextStart text start) := by
  rw [splitLoop, if_neg (by omega)]
  have hid : pyStrip (pySlice text start (chunkEnd text start)) =
      pySlice text start (chunkEnd text start) :=
    pyStrip_eq_self (fun c hc => hws c (mem_pySlice hc))
  have hne : pySlice text start (chunkEnd text start) ≠ [] := by
    have hlow := chunkEnd_lower text start
    have hpos : 0 < (pySlice text start (chunkEnd text start)).length := by
      rw [length_pySlice]
      omega
    intro hcontra
    rw [hcontra] at hpos
    simp at hpos
  simp only [hid]
  rw [if_neg hne]

/-- C6: a 499-character input (chunk target 500) returns exactly one
chunk equal to the input; a 1050-character whitespace-free input is
split in exactly three iterations into three chunks whose boundaries
overlap by the configured 50 characters (each later chunk starts 50
characters before the previous chunk's end).  For inputs containing
whitespace-only windows the "at least 3 chunks" reading fails (see the
counterexample), because empty stripped chunks are discarded. -/
theorem claim6_boundary_chunks :
    (∀ text : List Char, text.length = 499 → splitTextIntoChunks text = [text]) ∧
    (∀ text : List Char, text.length = 1050 →
      (∀ c ∈ text, pyIsSpace c = false) →
      ∃ e1 e2, 402 ≤ e1 ∧ e1 ≤ 501 ∧ e1 + 352 ≤ e2 ∧ e2 ≤ e1 + 451 ∧
        splitTextIntoChunks text =
          [pySlice text 0 e1, pySlice text (e1 - 50) e2, pySlice text (e2 - 50) 1050]) := by
  constructor
  · intro text hlen
    rw [splitTextIntoChunks, if_pos (by omega)]
  · intro text hlen hws
    have hE1l := chunkEnd_lower text 0
    have hE1u := chunkEnd_upper text 0
    have hS2l := nextStart_lower text 0
    have hS2u := nextStart_upper text 0
    have hE2l := chunkEnd_lower text (nextStart text 0)
    have hE2u := chunkEnd_upper text (nextStart text 0)
    have hS3l := nextStart_lower text (nextStart text 0)
    have hS3u := nextStart_upper text (nextStart text 0)
    have hnd1 : nextStart text 0 = chunkEnd text 0 - 50 := rfl
    have hnd2 : nextStart text (nextStart text 0) =
        chunkEnd text (nextStart text 0) - 50 := rfl
    refine ⟨chunkEnd text 0, chunkEnd text (nextStart text 0),
      by omega, by omega, by omega, by omega, ?_⟩
    rw [splitTextIntoChunks, if_neg (by omega)]
    rw [splitLoop_cons_of (by omega) hws]
    rw [splitLoop_cons_of (by omega) hws]
    rw [splitLoop_cons_of (by omega) hws]
    have hfin : nextStart text (nextStart text (nextStart text 0)) =
        nextStart text (nextStart text 0) + 450 :=
      nextStart_final (by omega)
    rw [splitLoop_nil (by omega)]
    have hc3 : chunkEnd text (nextStart text (nextStart text 0)) =
        nextStart text (nextStart text 0) + 500 := by
      unfold chunkEnd
      rw [if_neg (by omega)]
    rw [hc3]
    have h3 : pySlice text (nextStart text (nextStart text 0))
        (nextStart text (nextStart text 0) + 500) =
        pySlice text (chunkEnd text (nextStart text 0) - 50) 1050 := by
      rw [← hnd2]
      exact pySlice_clamp (by omega) (by omega)
    rw [h3, hnd1]

/-- Witness for C6 at concrete inputs: a 499-character text comes back
as a single chunk, and a 1050-character text of letters produces the
three overlapping chunks. -/
theorem claim6_boundary_chunks_witness :
    splitTextIntoChunks (List.replicate 499 'b') = [List.replicate 499 'b'] ∧
    (∃ e1 e2, 402 ≤ e1 ∧ e1 ≤ 501 ∧ e1 + 352 ≤ e2 ∧ e2 ≤ e1 + 451 ∧
      splitTextIntoChunks (List.replicate 1050 'a') =
        [pySlice (List.replicate 1050 'a') 0 e1,
         pySlice (List.replicate 1050 'a') (e1 - 50) e2,
         pySlice (List.replicate 1050 'a') (e2 - 50) 1050]) :=
  ⟨claim6_boundary_chunks.1 (List.replicate 499 'b') (List.length_replicate 499 'b'),
   claim6_boundary_chunks.2 (List.replicate 1050 'a') (List.length_replicate 1050 'a')
     (by
       intro c hc
       have := List.eq_of_mem_replicate hc
       subst this
       decide)⟩

/-! ### Chunk creation (`_create_chunks_from_content`, lines 129-214) -/

/-- One parsed content block as consumed by chunk creation. -/
structure ContentItem where
  content : List Char
  itemType : String
  sectionName : String
  page : Option Int
  sheetName : String

/-- One produced chunk record (the fields the cap argument needs). -/
structure ChunkData where
  content : List Char
  chunkIndex : Nat
  chunkType : String
  sectionName : String
  chunkSubIndex : Nat

/-- The inner loop over one item's split chunks (lines 167-206):
`embedOk` models per-chunk embedding success — a failure skips the chunk
without consuming an index; `chunkIndex ≥ 200` breaks.  Returns the
produced chunks and the final `chunk_index`. -/
def chunkInnerLoop (embedOk : List Char → Bool) (item : ContentItem) :
    List (List Char) → Nat → Nat → List ChunkData × Nat
  | [], _, chunkIndex => ([], chunkIndex)
  | tc :: rest, i, chunkIndex =>
    if 200 ≤ chunkIndex then ([], chunkIndex)
    else if pyStrip tc = [] then chunkInnerLoop embedOk item rest (i + 1) chunkIndex
    else if embedOk tc then
      let r := chunkInnerLoop embedOk item rest (i + 1) (chunkIndex + 1)
      (⟨tc, chunkIndex, item.itemType, item.sectionName, i⟩ :: r.1, r.2)
    else chunkInnerLoop embedOk item rest (i + 1) chunkIndex

/-- The outer loop over content items (lines 153-206):
`chunk_index ≥ 200` breaks, blank items are skipped, other items are
split and fed to the inner loop. -/
def chunkOuterLoop (embedOk : List Char → Bool) :
    List ContentItem → Nat → List ChunkData
  | [], _ => []
  | item :: rest, chunkIndex =>
    if 200 ≤ chunkIndex then []
    else if pyStrip item.content = [] then chunkOuterLoop embedOk rest chunkIndex
    else
      let r := chunkInnerLoop embedOk item (splitTextIntoChunks item.content) 0 chunkIndex
      r.1 ++ chunkOuterLoop embedOk rest r.2

/-- `_create_chunks_from_content`, chunk-production part: the loops
start at `chunk_index = 0`. -/
def createChunksFromContent (embedOk : List Char → Bool)
    (content : List ContentItem) : List ChunkData :=
  chunkOuterLoop embedOk content 0

theorem chunkInnerLoop_spec (embedOk : List Char → Bool) (item : ContentItem) :
    ∀ (tcs : List (List Char)) (i chunkIndex : Nat),
      (chunkInnerLoop embedOk item tcs i chunkIndex).2 =
        chunkIndex + (chunkInnerLoop embedOk item tcs i chunkIndex).1.length ∧
      (chunkIndex ≤ 200 → (chunkInnerLoop embedOk item tcs i chunkIndex).2 ≤ 200) := by
  intro tcs
  induction tcs with
  | nil => intro i idx; simp [chunkInnerLoop]
  | cons tc rest ih =>
    intro i idx
    by_cases hcap : 200 ≤ idx
    · simp [chunkInnerLoop, hcap]
    · by_cases hblank : pyStrip tc = []
      · simpa [chunkInnerLoop, hcap, hblank] using ih (i + 1) idx
      · by_cases hembed : embedOk tc = true
        · have ihr := ih (i + 1) (idx + 1)
          have h1 := ihr.1
          simp only [chunkInnerLoop, if_neg hcap, if_neg hblank, if_pos hembed]
          refine ⟨?_, ?_⟩
          · simp only [List.length_cons]
            omega
          · intro hle
            exact ihr.2 (by omega)
        · simpa [chunkInnerLoop, hcap, hblank, hembed] using ih (i + 1) idx

theorem chunkOuterLoop_le (embedOk : List Char → Bool) :
    ∀ (items : List ContentItem) (chunkIndex : Nat), chunkIndex ≤ 200 →
      chunkIndex + (chunkOuterLoop embedOk items chunkIndex).length ≤ 200 := by
  intro items
  induction items with
  | nil => intro idx h; simpa [chunkOuterLoop] using h
  | cons item rest ih =>
    intro idx hle
    by_cases hcap : 200 ≤ idx
    · simpa [chunkOuterLoop, hcap] using hle
    · by_cases hblank : pyStrip item.content = []
      · simpa [chunkOuterLoop, hcap, hblank] using ih idx hle
      · have hinner := chunkInnerLoop_spec embedOk item
          (splitTextIntoChunks item.content) 0 idx
        have houter := ih (chunkInnerLoop embedOk item
          (splitTextIntoChunks item.content) 0 idx).2 (hinner.2 hle)
        simp only [chunkOuterLoop, if_neg hcap, if_neg hblank, List.length_append]
        omega

/-- C7 (amended): chunk creation produces at most 200 chunks per
document — the `MAX_CHUNKS_PER_DOCUMENT` cap is enforced by both loops.
(The 1000-iteration cap and the minimal-progress abort live in the
parser's separate splitter, not in the processor's split loop, which
instead terminates by always advancing; see the counterexample.) -/
theorem claim7_chunk_cap (embedOk : List Char → Bool) (content : List ContentItem) :
    (createChunksFromContent embedOk content).length ≤ 200 := by
  have := chunkOuterLoop_le embedOk content 0 (by omega)
  unfold createChunksFromContent
  omega

theorem scanBackAux_none {text : List Char} {pred : Char → Bool}
    (hpred : ∀ j, pred (text.getD j ' ') = false) :
    ∀ (count hi : Nat), scanBackAux text pred count hi = none := by
  intro count
  induction count with
  | zero => intro hi; rfl
  | succ n ih =>
    intro hi
    unfold scanBackAux
    have hp := hpred hi
    rw [List.getD_eq_getElem?_getD] at hp
    rw [if_neg (by simp [hp])]
    exact ih (hi - 1)

/-- With no sentence terminators and no newlines anywhere, the `end`
adjustment keeps the raw boundary and the loop advances by exactly
450 every iteration. -/
theorem nextStart_no_marks {text : List Char}
    (hsent : ∀ j, isSentenceEnd (text.getD j ' ') = false)
    (hnl : ∀ j, (decide (text.getD j ' ' = '\n')) = false)
    (start : Nat) : nextStart text start = start + 450 := by
  unfold nextStart chunkEnd
  by_cases h : start + 500 < text.length
  · rw [if_pos h]
    unfold adjustEnd scanBack
    rw [scanBackAux_none hsent, scanBackAux_none hnl]
    simp
  · rw [if_neg h]
    omega

theorem splitLoopIters_lower {text : List Char}
    (hsent : ∀ j, isSentenceEnd (text.getD j ' ') = false)
    (hnl : ∀ j, (decide (text.getD j ' ' = '\n')) = false) :
    ∀ (k start : Nat), start + 450 * k < text.length →
      k + 1 ≤ splitLoopIters text start := by
  intro k
  induction k with
  | zero =>
    intro start hlt
    rw [splitLoopIters, if_neg (by omega)]
    omega
  | succ k ih =>
    intro start hlt
    rw [splitLoopIters, if_neg (by omega), nextStart_no_marks hsent hnl]
    have := ih (start + 450) (by omega)
    omega

/-- C7 counterexample: the processor's split loop has no iteration
counter — on half a million terminator-free characters it runs 1112
iterations, more than the claimed 1000-iteration cap (which exists only
in the parser's separate splitter). -/
theorem claim7_counterexample :
    1000 < splitIters (List.replicate 500000 'a') := by
  have hget : ∀ j, (List.replicate 500000 'a').getD j ' ' = 'a' ∨
      (List.replicate 500000 'a').getD j ' ' = ' ' := by
    intro j
    by_cases hj : j < 500000
    · left
      rw [List.getD_eq_getElem?_getD, List.getElem?_replicate, if_pos hj]
      rfl
    · right
      rw [List.getD_eq_getElem?_getD, List.getElem?_replicate, if_neg hj]
      rfl
  have hsent : ∀ j, isSentenceEnd ((List.replicate 500000 'a').getD j ' ') = false := by
    intro j
    rcases hget j with h | h <;> rw [h] <;> decide
  have hnl : ∀ j, (decide ((List.replicate 500000 'a').getD j ' ' = '\n')) = false := by
    intro j
    rcases hget j with h | h <;> rw [h] <;> decide
  have hlow := splitLoopIters_lower hsent hnl 1111 0
    (by rw [List.length_replicate]; omega)
  rw [splitIters, if_neg (by rw [List.length_replicate]; omega)]
  omega

/-! ### Generator prompt builder (src/services/rag_service.py,
`_prepare_conversation_messages`, lines 140-277) -/

/-- The triple-quoted base system prompt (rag_service.py lines 145-175). -/
def enhancedSystemPromptBase : String :=
  "Ты - эксперт по кулинарным вопросам и ресторанному менеджменту. Твоя задача - вести естественный диалог с пользователями.\n"
  ++ "\n"
  ++ "ВАЖНО: ВСЕГДА отвечай ТОЛЬКО НА РУССКОМ ЯЗЫКЕ, независимо от языка вопроса пользователя.\n"
  ++ "\n"
  ++ "РЕЖИМЫ ОТВЕТОВ:\n"
  ++ "1. **ДОКУМЕНТНЫЙ РЕЖИМ** - когда есть релевантная информация в документах\n"
  ++ "2. **ГИБРИДНЫЙ РЕЖИМ** - комбинируй документы с общими знаниями  \n"
  ++ "3. **ОБЩИЙ РЕЖИМ** - используй общие знания для поддержания диалога\n"
  ++ "\n"
  ++ "СТРАТЕГИЯ ДИАЛОГА:\n"
  ++ "- Если вопрос связан с найденными документами - используй их как основу\n"
  ++ "- Если вопрос выходит за рамки документов - используй общие знания\n"
  ++ "- Если это продолжение диалога - поддерживай контекст и естественность\n"
  ++ "- Задавай уточняющие вопросы для лучшего понимания потребностей\n"
  ++ "- Предлагай связанные темы для углубления разговора\n"
  ++ "\n"
  ++ "ПРАВИЛА ОТВЕТОВ:\n"
  ++ "1. Отвечай ТОЛЬКО на русском языке\n"
  ++ "2. Приоритет - найденным документам, но не ограничивайся только ими\n"
  ++ "3. Если информации недостаточно в документах - используй общие знания\n"
  ++ "4. Поддерживай естественный диалог и контекст разговора\n"
  ++ "5. Задавай уточняющие вопросы для лучшего понимания\n"
  ++ "6. Предлагай связанные темы для продолжения разговора\n"
  ++ "\n"
  ++ "ФОРМАТ ОТВЕТА:\n"
  ++ "- Начинай с прямого ответа на вопрос\n"
  ++ "- Подкрепляй ответы данными из документов (если есть)\n"
  ++ "- Добавляй полезную информацию из общих знаний\n"
  ++ "- Завершай предложением для продолжения диалога\n"
  ++ "\n"
  ++ "ПОМНИ: Ты не просто поисковик, а собеседник-эксперт!"

/-- A document-context snapshot as read by the prompt builder
(`doc.get('document_id'/'section'/'query', ...)`). -/
structure SessDoc where
  documentId : Option Int
  docSection : Option String
  query : Option String

/-- The `session_context` dictionary as read by the prompt builder. -/
structure SessCtx where
  documentContext : List SessDoc
  currentSection : Option String

/-- A context chunk as read by the prompt builder (`chunk['content']`,
`chunk.get('document_id')`, `chunk.get('section')`, `chunk.get('score', 0)`). -/
structure PromptChunk where
  content : String
  documentId : Option Int
  docSection : Option String
  score : ℚ

/-- The `question_analysis` dictionary as read by the prompt builder. -/
structure QA where
  suggestedStrategy : String
  isFollowUp : Bool
  isClarification : Bool
  isPractical : Bool

/-- `doc.get(key, 'Неизвестно')` rendering for integer ids. -/
def dispId : Option Int → String
  | some n => toString n
  | none => "Неизвестно"

/-- `doc.get(key, 'Неизвестно')` rendering for strings. -/
def dispStr : Option String → String
  | some s => s
  | none => "Неизвестно"

/-- Python `f"{score:.2f}"` for the nonnegative scores used here
(two decimals, rounding half up at the third decimal). -/
def formatScore (q : ℚ) : String :=
  let n : Int := ⌊q * 100 + mkRat 1 2⌋
  let ip := n / 100
  let fp := n % 100
  toString ip ++ "." ++ (if fp < 10 then "0" else "") ++ toString fp

/-- The enumerated session-document lines (lines 185-189). -/
def sessionDocLines : List SessDoc → Nat → String
  | [], _ => ""
  | d :: rest, i =>
    toString i ++ ". Документ " ++ dispId d.documentId ++ " (раздел: "
      ++ dispStr d.docSection ++ ") - найден по запросу: \x27"
      ++ dispStr d.query ++ "\x27\n"
      ++ sessionDocLines rest (i + 1)

/-- The session-context addition (lines 177-196). -/
def sessionCtxPart (sessionContext : Option SessCtx) : String :=
  match sessionContext with
  | some ctx =>
    if ctx.documentContext.isEmpty then ""
    else
      let recentDocs := ctx.documentContext.drop (ctx.documentContext.length - 5)
      "\n\nПРЕДЫДУЩИЙ КОНТЕКСТ СЕССИИ:\n"
        ++ "В этой сессии уже обсуждались следующие документы:\n"
        ++ sessionDocLines recentDocs 1
        ++ (if pyTruthyStr ctx.currentSection then
              "\nТЕКУЩИЙ ФОКУС РАЗДЕЛА: " ++ dispStr ctx.currentSection ++ "\n"
            else "")
  | none => ""

/-- The conversation-history addition (lines 198-212). -/
def historyPart (conversationHistory : List SCMessage) : String :=
  if conversationHistory.isEmpty then ""
  else
    let recent := conversationHistory.drop (conversationHistory.length - 5)
    "\n\nИСТОРИЯ ДИАЛОГА (последние " ++ toString recent.length ++ " сообщений):\n"
      ++ String.join (recent.map (fun m =>
          if m.role = "user" then "Пользователь: " ++ m.content ++ "\n"
          else "Предыдущий ответ: " ++ m.content ++ "\n"))

/-- The current-context header (lines 215-217), only when chunks exist. -/
def ctxHeader : String :=
  "\n\nТЕКУЩИЙ КОНТЕКСТ ДОКУМЕНТОВ:\n"
    ++ "Вот найденные релевантные фрагменты документов (используй их как основу, но не ограничивайся только ими):\n\n"

/-- The enumerated fragment lines of the `for` loop (lines 219-223). -/
def fragmentLines : List PromptChunk → Nat → String
  | [], _ => ""
  | c :: rest, i =>
    "Фрагмент " ++ toString i ++ ":\n"
      ++ "Содержание: " ++ c.content ++ "\n"
      ++ "Источник: Документ " ++ dispId c.documentId ++ ", Раздел: "
      ++ dispStr c.docSection ++ "\n"
      ++ "Релевантность: " ++ formatScore c.score ++ "\n\n"
      ++ fragmentLines rest (i + 1)

/-- The `else` clause of the `for` loop (lines 224-225).  The loop body
contains no `break`, so in Python this clause runs on EVERY call,
whether or not chunks are present. -/
def noDocsNotice : String :=
  "\n\nКОНТЕКСТ: В данный момент нет найденных документов по запросу. Используй общие знания для ответа и предложи, какие документы могут быть полезны."

/-- The strategy guidance block (lines 230-246). -/
def strategyPart (questionAnalysis : Option QA) (contextChunks : List PromptChunk) : String :=
  match questionAnalysis with
  | some qa =>
    if qa.suggestedStrategy = "document_heavy" then
      "\n\nСТРАТЕГИЯ ОТВЕТА: У тебя есть релевантные документы. Сделай акцент на них, но можешь дополнить общими знаниями для более полного ответа."
    else if qa.suggestedStrategy = "context_aware" then
      "\n\nСТРАТЕГИЯ ОТВЕТА: Это продолжение диалога. Используй контекст предыдущих сообщений и найденные документы для связного ответа."
    else if qa.suggestedStrategy = "general_knowledge" then
      "\n\nСТРАТЕГИЯ ОТВЕТА: Документов не найдено. Используй общие знания и предложи, как можно найти нужную информацию."
    else
      "\n\nСТРАТЕГИЯ ОТВЕТА: У тебя есть релевантные документы. Начни с них, но можешь дополнить общими знаниями для более полного ответа."
  | none =>
    if contextChunks.isEmpty then
      "\n\nСТРАТЕГИЯ ОТВЕТА: Документов не найдено. Используй общие знания и предложи, как можно найти нужную информацию."
    else
      "\n\nСТРАТЕГИЯ ОТВЕТА: У тебя есть релевантные документы. Начни с них, но можешь дополнить общими знаниями для более полного ответа."

/-- Lines 251-256. -/
def followUpPart (questionAnalysis : Option QA) : String :=
  match questionAnalysis with
  | some qa =>
    if qa.isFollowUp then
      "\n\nОСОБЫЕ ИНСТРУКЦИИ ДЛЯ FOLLOW-UP ВОПРОСА:\n"
        ++ "- Это продолжение диалога, поэтому поддерживай естественность\n"
        ++ "- Ссылайся на предыдущие ответы и найденные документы\n"
        ++ "- Если нужно, задавай уточняющие вопросы\n"
        ++ "- Предлагай связанные темы для углубления разговора"
    else ""
  | none => ""

/-- Lines 259-264. -/
def clarificationPart (questionAnalysis : Option QA) : String :=
  match questionAnalysis with
  | some qa =>
    if qa.isClarification then
      "\n\nОСОБЫЕ ИНСТРУКЦИИ ДЛЯ УТОЧНЯЮЩЕГО ВОПРОСА:\n"
        ++ "- Объясни простыми и понятными словами\n"
        ++ "- Используй примеры и аналогии\n"
        ++ "- Разбивай сложные концепции на простые части\n"
        ++ "- Проверяй понимание пользователя"
    else ""
  | none => ""

/-- Lines 267-272. -/
def practicalPart (questionAnalysis : Option QA) : String :=
  match questionAnalysis with
  | some qa =>
    if qa.isPractical then
      "\n\nОСОБЫЕ ИНСТРУКЦИИ ДЛЯ ПРАКТИЧЕСКОГО ВОПРОСА:\n"
        ++ "- Давай пошаговые инструкции\n"
        ++ "- Указывай важные детали и нюансы\n"
        ++ "- Предупреждай о возможных проблемах\n"
        ++ "- Предлагай альтернативные варианты"
    else ""
  | none => ""

/-- The full system prompt assembled by
`_prepare_conversation_messages`, in source order: base, session
context, history, chunk header (only when chunks exist), fragments, the
for-`else` notice (always), the user question, strategy guidance, the
answer suffix and the special-instruction blocks. -/
def prepareSystemPrompt (query : String) (contextChunks : List PromptChunk)
    (conversationHistory : List SCMessage) (sessionContext : Option SessCtx)
    (questionAnalysis : Option QA) : String :=
  enhancedSystemPromptBase
    ++ sessionCtxPart sessionContext
    ++ historyPart conversationHistory
    ++ (if contextChunks.isEmpty then "" else ctxHeader)
    ++ fragmentLines contextChunks 1
    ++ noDocsNotice
    ++ ("ВОПРОС ПОЛЬЗОВАТЕЛЯ:\n" ++ query ++ "\n\n")
    ++ strategyPart questionAnalysis contextChunks
    ++ "\n\nОТВЕТ (обязательно на русском языке, поддерживай диалог):"
    ++ followUpPart questionAnalysis
    ++ clarificationPart questionAnalysis
    ++ practicalPart questionAnalysis

theorem stringAppendAssoc (a b c : String) : a ++ b ++ c = a ++ (b ++ c) := by
  cases a with
  | mk da =>
    cases b with
    | mk db =>
      cases c with
      | mk dc =>
        show String.mk (da ++ db ++ dc) = String.mk (da ++ (db ++ dc))
        rw [List.append_assoc]

/-- C10: the "no documents found, use general knowledge" notice appears
in every constructed system prompt, whether or not context chunks are
present: it is the `else` clause of a `for` loop that never `break`s,
so it always executes. -/
theorem claim10_notice_always_included (query : String)
    (contextChunks : List PromptChunk) (conversationHistory : List SCMessage)
    (sessionContext : Option SessCtx) (questionAnalysis : Option QA) :
    ∃ a b : String,
      prepareSystemPrompt query contextChunks conversationHistory
        sessionContext questionAnalysis = a ++ (noDocsNotice ++ b) := by
  refine ⟨enhancedSystemPromptBase
      ++ sessionCtxPart sessionContext
      ++ historyPart conversationHistory
      ++ (if contextChunks.isEmpty then "" else ctxHeader)
      ++ fragmentLines contextChunks 1,
    ("ВОПРОС ПОЛЬЗОВАТЕЛЯ:\n" ++ query ++ "\n\n")
      ++ strategyPart questionAnalysis contextChunks
      ++ "\n\nОТВЕТ (обязательно на русском языке, поддерживай диалог):"
      ++ followUpPart questionAnalysis
      ++ clarificationPart questionAnalysis
      ++ practicalPart questionAnalysis, ?_⟩
  unfold prepareSystemPrompt
  simp only [stringAppendAssoc]

end RagAssistant
